import Mathlib

/- Shallow embedding of src/rgb-simple-comm.c: a stateful, clockless
colour-transition codec.  The Colour type mirrors the rgb_colour enum; the
encoder nextColourSeq_from_2bit, the decoder nextColourSeq_to_2bit, and the
byte-level toColourSeq_uint8 / fromColourSeq_get_uint8 are translated
statement by statement from the C source.  The 100-entry C array is modelled
as a total function Nat → Colour with pointwise update (writeAt); uint8_t
arithmetic is modelled on Nat with explicit % 256 where the C value wraps. -/

inductive Colour where
  | DARK
  | BLUE
  | GREEN
  | CYAN
  | RED
  | MAGENTA
  | YELLOW
  | WHITE
deriving DecidableEq, Fintype

/- Offset switch appearing verbatim (twice, identically) in
nextColourSeq_from_2bit and nextColourSeq_to_2bit: the rotation applied to
the 5-colour data cycle so the emitted colour never repeats the previous
one. -/
def offsetOf : Colour → Nat
  | Colour.DARK => 0
  | Colour.BLUE => 1
  | Colour.GREEN => 2
  | Colour.CYAN => 3
  | Colour.RED => 4
  | Colour.MAGENTA => 5
  | Colour.YELLOW => 0
  | Colour.WHITE => 0

/- The halfByteColour[5] table: the 5 colour states used for data. -/
def halfByteColour : List Colour :=
  [Colour.BLUE, Colour.GREEN, Colour.CYAN, Colour.RED, Colour.MAGENTA]

/- nextColourSeq_from_2bit (lines 98-144): mask the half nibble to 2 bits,
look up the offset of the previous colour, return
halfByteColour[(halfnibble + offset) % 5]. -/
def nextColourSeq_from_2bit (halfnibble : Nat) (previous_colour : Colour) : Colour :=
  let hn := halfnibble &&& 0x03
  let offset := offsetOf previous_colour
  halfByteColour.getD ((hn + offset) % 5) Colour.DARK

/- Outcome of nextColourSeq_to_2bit: the C function returns an int code and
writes *halfnibble_out only on code 0.  Data v bundles code 0 with the
written half nibble. -/
inductive DecodeOutcome where
  | Idle
  | ChannelDown
  | Mark1
  | Mark2
  | Data (halfnibble : Nat)
deriving DecidableEq

/- The integer return codes of nextColourSeq_to_2bit as documented and
written in the C source: -1 idle, -2 channel down, 1 mark 1, 2 mark 2,
0 data. -/
def outcomeCode : DecodeOutcome → Int
  | DecodeOutcome.Idle => -1
  | DecodeOutcome.ChannelDown => -2
  | DecodeOutcome.Mark1 => 1
  | DecodeOutcome.Mark2 => 2
  | DecodeOutcome.Data _ => 0

/- The tail of nextColourSeq_to_2bit (lines 245-262): the underflow-guarded
subtraction of offset from nibblebase, reduced mod 4, then masked with
0x03. -/
def decodeDataValue (nibblebase offset : Nat) : Nat :=
  (if nibblebase ≥ offset then (nibblebase - offset) % 4
   else (5 + nibblebase - offset) % 4) &&& 0x03

/- nextColourSeq_to_2bit (lines 183-263): idle check first, then the offset
switch on previous_colour, then the nibblebase switch on incoming_colour
(DARK returns -2, YELLOW returns 2, WHITE returns 1), then the guarded
subtraction producing the half nibble. -/
def nextColourSeq_to_2bit (incoming_colour previous_colour : Colour) : DecodeOutcome :=
  if incoming_colour = previous_colour then DecodeOutcome.Idle
  else
    let offset := offsetOf previous_colour
    match incoming_colour with
    | Colour.DARK => DecodeOutcome.ChannelDown
    | Colour.BLUE => DecodeOutcome.Data (decodeDataValue 0 offset)
    | Colour.GREEN => DecodeOutcome.Data (decodeDataValue 1 offset)
    | Colour.CYAN => DecodeOutcome.Data (decodeDataValue 2 offset)
    | Colour.RED => DecodeOutcome.Data (decodeDataValue 3 offset)
    | Colour.MAGENTA => DecodeOutcome.Data (decodeDataValue 4 offset)
    | Colour.YELLOW => DecodeOutcome.Mark2
    | Colour.WHITE => DecodeOutcome.Mark1

/- Pointwise update of the colour sequence array: colourSeq[idx] = c. -/
def writeAt (seq : Nat → Colour) (idx : Nat) (c : Colour) : Nat → Colour :=
  fun k => if k = idx then c else seq k

/- The data loop of toColourSeq_uint8 (lines 154-161), with r counting the
remaining iterations: at loop index i the C code shifts by 2*(3-i), i.e. by
2*r with r = 4 - i the remaining count before this iteration. -/
def toColourSeq_data (input : Nat) :
    (Nat → Colour) → Nat → Colour → Nat → (Nat → Colour) × Nat × Colour
  | seq, j, prev, 0 => (seq, j, prev)
  | seq, j, prev, r + 1 =>
    let half_nibble := (input >>> (2 * r)) &&& 0x3
    let c := nextColourSeq_from_2bit half_nibble prev
    toColourSeq_data input (writeAt seq j c) (j + 1) c r

/- toColourSeq_uint8 (lines 147-170): previous colour is DARK at cursor 0,
else the symbol before the cursor; four data symbols are appended, then
WHITE as the end-of-word mark, and the cursor advances past it. -/
def toColourSeq_uint8 (input : Nat) (colourSeq : Nat → Colour) (seq_ptr : Nat) :
    (Nat → Colour) × Nat :=
  let previous_colour := if seq_ptr = 0 then Colour.DARK else colourSeq (seq_ptr - 1)
  let s := toColourSeq_data input colourSeq seq_ptr previous_colour 4
  (writeAt s.1 s.2.1 Colour.WHITE, s.2.1 + 1)

/- The accumulator update in fromColourSeq_get_uint8 (lines 291-292):
*output = *output << 2 (uint8, hence mod 256); *output |= halfnibble_out. -/
def accPush (output halfnibble_out : Nat) : Nat :=
  ((output <<< 2) % 256) ||| halfnibble_out

/- The for loop of fromColourSeq_get_uint8 (lines 274-301), with fuel the
remaining iterations (5 at entry).  Each iteration reads colourSeq[ptr],
advances the cursor and sets previous to the incoming colour, then switches
on the return code: marks return 1, data shifts the accumulator, idle
continues, channel down returns -1; falling out of the loop returns 0. -/
def fromColourSeq_loop (colourSeq : Nat → Colour) :
    Nat → Nat → Colour → Nat → Int × Nat × Nat
  | 0, ptr, _, output => (0, ptr, output)
  | i + 1, ptr, previous_colour, output =>
    let incoming_colour := colourSeq ptr
    match nextColourSeq_to_2bit incoming_colour previous_colour with
    | DecodeOutcome.Mark2 => (1, ptr + 1, output)
    | DecodeOutcome.Mark1 => (1, ptr + 1, output)
    | DecodeOutcome.Data hn =>
        fromColourSeq_loop colourSeq i (ptr + 1) incoming_colour (accPush output hn)
    | DecodeOutcome.Idle => fromColourSeq_loop colourSeq i (ptr + 1) incoming_colour output
    | DecodeOutcome.ChannelDown => (-1, ptr + 1, output)

/- fromColourSeq_get_uint8 (lines 266-303): previous colour is DARK at
cursor 0, else the symbol before the cursor; *output starts at 0; the loop
runs for at most 5 iterations.  Result is (return code, final cursor, final
*output). -/
def fromColourSeq_get_uint8 (colourSeq : Nat → Colour) (seq_ptr : Nat) : Int × Nat × Nat :=
  let previous_colour := if seq_ptr = 0 then Colour.DARK else colourSeq (seq_ptr - 1)
  fromColourSeq_loop colourSeq 5 seq_ptr previous_colour 0

/- A colour is one of the five data colours (BLUE..MAGENTA). -/
def isDataColour (c : Colour) : Bool :=
  match c with
  | Colour.BLUE => true
  | Colour.GREEN => true
  | Colour.CYAN => true
  | Colour.RED => true
  | Colour.MAGENTA => true
  | _ => false

/- Successive calls of toColourSeq_uint8 on a list of bytes, threading the
sequence and cursor exactly as the callers in main do (lines 393-409). -/
def toColourSeq_bytes (bytes : List Nat) (seq : Nat → Colour) (ptr : Nat) :
    (Nat → Colour) × Nat :=
  match bytes with
  | [] => (seq, ptr)
  | b :: rest =>
      let s := toColourSeq_uint8 b seq ptr
      toColourSeq_bytes rest s.1 s.2

theorem and_three_eq_mod_four (x : Nat) : x &&& 3 = x % 4 := by
  have h := Nat.and_pow_two_sub_one_eq_mod x 2
  norm_num at h
  exact h

/-- C1: for every previous symbol p among all 8 colours and every 2-bit value
v < 4, decoding the colour produced by the encoder against the same previous
colour yields the Data outcome (return code 0) carrying exactly v. -/
theorem C1_halfnibble_roundtrip (p : Colour) (v : Nat) (hv : v < 4) :
    nextColourSeq_to_2bit (nextColourSeq_from_2bit v p) p = DecodeOutcome.Data v ∧
    outcomeCode (nextColourSeq_to_2bit (nextColourSeq_from_2bit v p) p) = 0 := by
  have h4 : v = 0 ∨ v = 1 ∨ v = 2 ∨ v = 3 := by omega
  rcases h4 with rfl | rfl | rfl | rfl <;> cases p <;> exact ⟨rfl, rfl⟩

/-- C1 witness: the round trip at previous colour GREEN and value 2. -/
theorem C1_halfnibble_roundtrip_witness :
    (2 : Nat) < 4 ∧
    (nextColourSeq_to_2bit (nextColourSeq_from_2bit 2 Colour.GREEN) Colour.GREEN =
        DecodeOutcome.Data 2 ∧
      outcomeCode (nextColourSeq_to_2bit (nextColourSeq_from_2bit 2 Colour.GREEN)
        Colour.GREEN) = 0) :=
  ⟨by decide, C1_halfnibble_roundtrip Colour.GREEN 2 (by decide)⟩

/-- C3: for every previous symbol p and every 2-bit value v < 4, the encoder
returns one of the five data colours and never returns p itself. -/
theorem C3_no_repeat (p : Colour) (v : Nat) (hv : v < 4) :
    nextColourSeq_from_2bit v p ∈ halfByteColour ∧ nextColourSeq_from_2bit v p ≠ p := by
  have h4 : v = 0 ∨ v = 1 ∨ v = 2 ∨ v = 3 := by omega
  rcases h4 with rfl | rfl | rfl | rfl <;> cases p <;> exact ⟨by decide, by decide⟩

/-- C3 witness: at previous colour MAGENTA and value 3 the encoder output is
a data colour distinct from MAGENTA. -/
theorem C3_no_repeat_witness :
    (3 : Nat) < 4 ∧
    (nextColourSeq_from_2bit 3 Colour.MAGENTA ∈ halfByteColour ∧
      nextColourSeq_from_2bit 3 Colour.MAGENTA ≠ Colour.MAGENTA) :=
  ⟨by decide, C3_no_repeat Colour.MAGENTA 3 (by decide)⟩

/-- C6: for every previous symbol other than DARK, an incoming DARK colour
decodes to the ChannelDown outcome, return code -2. -/
theorem C6_channel_down (p : Colour) (hp : p ≠ Colour.DARK) :
    nextColourSeq_to_2bit Colour.DARK p = DecodeOutcome.ChannelDown ∧
    outcomeCode (nextColourSeq_to_2bit Colour.DARK p) = -2 := by
  cases p <;> first
    | exact absurd rfl hp
    | exact ⟨rfl, rfl⟩

/-- C6 witness: incoming DARK after previous WHITE yields ChannelDown. -/
theorem C6_channel_down_witness :
    Colour.WHITE ≠ Colour.DARK ∧
    (nextColourSeq_to_2bit Colour.DARK Colour.WHITE = DecodeOutcome.ChannelDown ∧
      outcomeCode (nextColourSeq_to_2bit Colour.DARK Colour.WHITE) = -2) :=
  ⟨by decide, C6_channel_down Colour.WHITE (by decide)⟩

/-- C8: for every symbol s, an incoming colour equal to the previous colour
decodes to the Idle outcome, return code -1 (also when s is DARK, since the
equality test precedes the channel-down test). -/
theorem C8_idle (s : Colour) :
    nextColourSeq_to_2bit s s = DecodeOutcome.Idle ∧
    outcomeCode (nextColourSeq_to_2bit s s) = -1 := by
  cases s <;> exact ⟨rfl, rfl⟩

/-- C10: the encoder masks its value argument to the low 2 bits: for every
natural v (in particular every 8-bit value) and every previous symbol p,
encoding v equals encoding v mod 4. -/
theorem C10_encoder_masks (v : Nat) (p : Colour) :
    nextColourSeq_from_2bit v p = nextColourSeq_from_2bit (v % 4) p := by
  unfold nextColourSeq_from_2bit
  have h1 : v &&& 3 = v % 4 &&& 3 := by
    rw [and_three_eq_mod_four, and_three_eq_mod_four]
    omega
  rw [show (0x03 : Nat) = 3 from rfl, h1]

theorem dataColour_props (c : Colour) (hc : isDataColour c = true) :
    c ≠ Colour.DARK ∧ c ≠ Colour.WHITE ∧ c ≠ Colour.YELLOW := by
  cases c <;> simp_all [isDataColour]

theorem to_2bit_data_or_idle (c prev : Colour) (hc : isDataColour c = true) :
    nextColourSeq_to_2bit c prev = DecodeOutcome.Idle ∨
    ∃ hn, nextColourSeq_to_2bit c prev = DecodeOutcome.Data hn := by
  by_cases h : c = prev
  · left
    simp [nextColourSeq_to_2bit, h]
  · right
    cases c with
    | DARK => simp [isDataColour] at hc
    | YELLOW => simp [isDataColour] at hc
    | WHITE => simp [isDataColour] at hc
    | BLUE => exact ⟨decodeDataValue 0 (offsetOf prev), by simp [nextColourSeq_to_2bit, h]⟩
    | GREEN => exact ⟨decodeDataValue 1 (offsetOf prev), by simp [nextColourSeq_to_2bit, h]⟩
    | CYAN => exact ⟨decodeDataValue 2 (offsetOf prev), by simp [nextColourSeq_to_2bit, h]⟩
    | RED => exact ⟨decodeDataValue 3 (offsetOf prev), by simp [nextColourSeq_to_2bit, h]⟩
    | MAGENTA => exact ⟨decodeDataValue 4 (offsetOf prev), by simp [nextColourSeq_to_2bit, h]⟩

theorem to_2bit_white (prev : Colour) (h : prev ≠ Colour.WHITE) :
    nextColourSeq_to_2bit Colour.WHITE prev = DecodeOutcome.Mark1 := by
  cases prev <;> first
    | exact absurd rfl h
    | rfl

theorem to_2bit_yellow (prev : Colour) (h : prev ≠ Colour.YELLOW) :
    nextColourSeq_to_2bit Colour.YELLOW prev = DecodeOutcome.Mark2 := by
  cases prev <;> first
    | exact absurd rfl h
    | rfl

theorem loop_all_data (n : Nat) :
    ∀ (seq : Nat → Colour) (ptr : Nat) (prev : Colour) (out : Nat),
      (∀ i, i < n → isDataColour (seq (ptr + i)) = true) →
      (fromColourSeq_loop seq n ptr prev out).1 = 0 ∧
      (fromColourSeq_loop seq n ptr prev out).2.1 = ptr + n := by
  induction n with
  | zero =>
      intro seq ptr prev out _
      exact ⟨rfl, rfl⟩
  | succ m ih =>
      intro seq ptr prev out h
      have h0 : isDataColour (seq ptr) = true := by simpa using h 0 (by omega)
      have hshift : ∀ i, i < m → isDataColour (seq (ptr + 1 + i)) = true := by
        intro i hi
        have hh := h (i + 1) (by omega)
        rwa [show ptr + (i + 1) = ptr + 1 + i by omega] at hh
      rcases to_2bit_data_or_idle (seq ptr) prev h0 with hout | ⟨hn, hout⟩
      · simp only [fromColourSeq_loop, hout]
        have hrec := ih seq (ptr + 1) (seq ptr) out hshift
        exact ⟨hrec.1, by rw [hrec.2]; omega⟩
      · simp only [fromColourSeq_loop, hout]
        have hrec := ih seq (ptr + 1) (seq ptr) (accPush out hn) hshift
        exact ⟨hrec.1, by rw [hrec.2]; omega⟩

theorem loop_channel_down (k : Nat) :
    ∀ (seq : Nat → Colour) (n ptr : Nat) (prev : Colour) (out : Nat),
      k < n →
      (k = 0 → prev ≠ Colour.DARK) →
      (∀ i, i < k → isDataColour (seq (ptr + i)) = true) →
      seq (ptr + k) = Colour.DARK →
      (fromColourSeq_loop seq n ptr prev out).1 = -1 := by
  induction k with
  | zero =>
      intro seq n ptr prev out hk hprev _ hdark
      cases n with
      | zero => omega
      | succ m =>
          have hd : seq ptr = Colour.DARK := by simpa using hdark
          have hout : nextColourSeq_to_2bit (seq ptr) prev = DecodeOutcome.ChannelDown := by
            rw [hd]
            have hne : Colour.DARK ≠ prev := fun hcon => (hprev rfl) hcon.symm
            cases prev <;> first
              | exact absurd rfl hne
              | rfl
          simp [fromColourSeq_loop, hout]
  | succ m ih =>
      intro seq n ptr prev out hk _ hdata hdark
      cases n with
      | zero => omega
      | succ n2 =>
          have h0 : isDataColour (seq ptr) = true := by simpa using hdata 0 (by omega)
          have hshift : ∀ i, i < m → isDataColour (seq (ptr + 1 + i)) = true := by
            intro i hi
            have hh := hdata (i + 1) (by omega)
            rwa [show ptr + (i + 1) = ptr + 1 + i by omega] at hh
          have hdark2 : seq (ptr + 1 + m) = Colour.DARK := by
            rwa [show ptr + (m + 1) = ptr + 1 + m by omega] at hdark
          have hpr : m = 0 → seq ptr ≠ Colour.DARK := fun _ => (dataColour_props _ h0).1
          rcases to_2bit_data_or_idle (seq ptr) prev h0 with hout | ⟨hn, hout⟩
          · simp only [fromColourSeq_loop, hout]
            exact ih seq n2 (ptr + 1) (seq ptr) out (by omega) hpr hshift hdark2
          · simp only [fromColourSeq_loop, hout]
            exact ih seq n2 (ptr + 1) (seq ptr) (accPush out hn) (by omega) hpr hshift hdark2

/-- C4 counterexample: a stream of five data transitions followed by a WHITE
marker at position 5, i.e. the marker arrives on the sixth transition, well
within a budget of 8.  A decoder examining up to 8 transitions would consume
the marker and succeed; fromColourSeq_get_uint8 instead stops after exactly
5 examined transitions and returns the framing-error code 0 with the cursor
at 5, so its budget is 5, not 8. -/
theorem C4_eight_budget_counterexample :
    (fun n => List.getD
        [Colour.BLUE, Colour.GREEN, Colour.BLUE, Colour.GREEN, Colour.BLUE,
         Colour.WHITE] n Colour.DARK) 5 = Colour.WHITE ∧
    (∀ i, i < 5 → isDataColour ((fun n => List.getD
        [Colour.BLUE, Colour.GREEN, Colour.BLUE, Colour.GREEN, Colour.BLUE,
         Colour.WHITE] n Colour.DARK) i) = true) ∧
    fromColourSeq_get_uint8 (fun n => List.getD
        [Colour.BLUE, Colour.GREEN, Colour.BLUE, Colour.GREEN, Colour.BLUE,
         Colour.WHITE] n Colour.DARK) 0 = (0, 5, 51) := by
  refine ⟨rfl, by decide, rfl⟩

/-- C4 amended: fromColourSeq_get_uint8 examines up to a bound of 5 (not 8)
transitions per call; when those 5 transitions are all data transitions (no
marker, no channel-down), the budget is exhausted and the call fails with the
framing-error code 0 — distinct from the success code 1 — with the cursor
advanced by exactly 5, so a stream ending mid-byte with no marker never
decodes as a success. -/
theorem C4_transition_budget (seq : Nat → Colour) (ptr : Nat)
    (h : ∀ i, i < 5 → isDataColour (seq (ptr + i)) = true) :
    (fromColourSeq_get_uint8 seq ptr).1 = 0 ∧
    (fromColourSeq_get_uint8 seq ptr).1 ≠ 1 ∧
    (fromColourSeq_get_uint8 seq ptr).2.1 = ptr + 5 := by
  have hl := loop_all_data 5 seq ptr
    (if ptr = 0 then Colour.DARK else seq (ptr - 1)) 0 h
  unfold fromColourSeq_get_uint8
  exact ⟨hl.1, by rw [hl.1]; decide, hl.2⟩

/-- C4 witness: five data transitions with no marker; decoding fails with
code 0 and the cursor stops at 5. -/
theorem C4_transition_budget_witness :
    (∀ i, i < 5 → isDataColour ((fun n => List.getD
        [Colour.BLUE, Colour.GREEN, Colour.BLUE, Colour.GREEN, Colour.BLUE]
        n Colour.BLUE) (0 + i)) = true) ∧
    ((fromColourSeq_get_uint8 (fun n => List.getD
        [Colour.BLUE, Colour.GREEN, Colour.BLUE, Colour.GREEN, Colour.BLUE]
        n Colour.BLUE) 0).1 = 0 ∧
      (fromColourSeq_get_uint8 (fun n => List.getD
        [Colour.BLUE, Colour.GREEN, Colour.BLUE, Colour.GREEN, Colour.BLUE]
        n Colour.BLUE) 0).1 ≠ 1 ∧
      (fromColourSeq_get_uint8 (fun n => List.getD
        [Colour.BLUE, Colour.GREEN, Colour.BLUE, Colour.GREEN, Colour.BLUE]
        n Colour.BLUE) 0).2.1 = 0 + 5) :=
  ⟨by decide, C4_transition_budget (fun n => List.getD
        [Colour.BLUE, Colour.GREEN, Colour.BLUE, Colour.GREEN, Colour.BLUE]
        n Colour.BLUE) 0 (by decide)⟩

/-- C7: if during a fromColourSeq_get_uint8 call the examined stream makes a
transition to DARK after a non-DARK previous symbol — k data transitions
followed by DARK at position k, with the initial previous symbol non-DARK
when k = 0 — the call returns the channel-closed code -1, distinct from both
the success code 1 and the framing-error code 0. -/
theorem C7_channel_closed_reported (seq : Nat → Colour) (ptr k : Nat)
    (hk : k < 5)
    (hdata : ∀ i, i < k → isDataColour (seq (ptr + i)) = true)
    (hdark : seq (ptr + k) = Colour.DARK)
    (hprev : k = 0 → (if ptr = 0 then Colour.DARK else seq (ptr - 1)) ≠ Colour.DARK) :
    (fromColourSeq_get_uint8 seq ptr).1 = -1 ∧
    (fromColourSeq_get_uint8 seq ptr).1 ≠ 0 ∧
    (fromColourSeq_get_uint8 seq ptr).1 ≠ 1 := by
  have hl := loop_channel_down k seq 5 ptr
    (if ptr = 0 then Colour.DARK else seq (ptr - 1)) 0 (by omega) hprev hdata hdark
  unfold fromColourSeq_get_uint8
  exact ⟨hl, by rw [hl]; decide, by rw [hl]; decide⟩

/-- C7 witness: two data transitions then DARK; decoding reports -1. -/
theorem C7_channel_closed_reported_witness :
    ((2 : Nat) < 5 ∧
      (∀ i, i < 2 → isDataColour ((fun n => List.getD
          [Colour.BLUE, Colour.GREEN, Colour.DARK] n Colour.DARK) (0 + i)) = true) ∧
      (fun n => List.getD [Colour.BLUE, Colour.GREEN, Colour.DARK] n Colour.DARK)
          (0 + 2) = Colour.DARK) ∧
    ((fromColourSeq_get_uint8 (fun n => List.getD
        [Colour.BLUE, Colour.GREEN, Colour.DARK] n Colour.DARK) 0).1 = -1 ∧
      (fromColourSeq_get_uint8 (fun n => List.getD
        [Colour.BLUE, Colour.GREEN, Colour.DARK] n Colour.DARK) 0).1 ≠ 0 ∧
      (fromColourSeq_get_uint8 (fun n => List.getD
        [Colour.BLUE, Colour.GREEN, Colour.DARK] n Colour.DARK) 0).1 ≠ 1) :=
  ⟨by decide, C7_channel_closed_reported
    (fun n => List.getD [Colour.BLUE, Colour.GREEN, Colour.DARK] n Colour.DARK)
    0 2 (by decide) (by decide) (by decide) (by decide)⟩

theorem loop_marker_interchange (k : Nat) :
    ∀ (seq : Nat → Colour) (n ptr : Nat) (prev : Colour) (out : Nat) (m1 m2 : Colour),
      k < n →
      (m1 = Colour.WHITE ∨ m1 = Colour.YELLOW) →
      (m2 = Colour.WHITE ∨ m2 = Colour.YELLOW) →
      (∀ i, i < k → isDataColour (seq (ptr + i)) = true) →
      (k = 0 → prev ≠ Colour.WHITE ∧ prev ≠ Colour.YELLOW) →
      ∃ o, fromColourSeq_loop (writeAt seq (ptr + k) m1) n ptr prev out =
             (1, ptr + k + 1, o) ∧
           fromColourSeq_loop (writeAt seq (ptr + k) m2) n ptr prev out =
             (1, ptr + k + 1, o) := by
  induction k with
  | zero =>
      intro seq n ptr prev out m1 m2 hk hm1 hm2 _ hprev
      cases n with
      | zero => omega
      | succ n2 =>
          have hw1 : writeAt seq ptr m1 ptr = m1 := by simp [writeAt]
          have hw2 : writeAt seq ptr m2 ptr = m2 := by simp [writeAt]
          have hout1 : nextColourSeq_to_2bit m1 prev = DecodeOutcome.Mark1 ∨
              nextColourSeq_to_2bit m1 prev = DecodeOutcome.Mark2 := by
            rcases hm1 with rfl | rfl
            · exact Or.inl (to_2bit_white prev fun hc => (hprev rfl).1 hc)
            · exact Or.inr (to_2bit_yellow prev fun hc => (hprev rfl).2 hc)
          have hout2 : nextColourSeq_to_2bit m2 prev = DecodeOutcome.Mark1 ∨
              nextColourSeq_to_2bit m2 prev = DecodeOutcome.Mark2 := by
            rcases hm2 with rfl | rfl
            · exact Or.inl (to_2bit_white prev fun hc => (hprev rfl).1 hc)
            · exact Or.inr (to_2bit_yellow prev fun hc => (hprev rfl).2 hc)
          refine ⟨out, ?_, ?_⟩
          · show fromColourSeq_loop (writeAt seq ptr m1) (n2 + 1) ptr prev out =
              (1, ptr + 1, out)
            rcases hout1 with h | h <;> simp [fromColourSeq_loop, hw1, h]
          · show fromColourSeq_loop (writeAt seq ptr m2) (n2 + 1) ptr prev out =
              (1, ptr + 1, out)
            rcases hout2 with h | h <;> simp [fromColourSeq_loop, hw2, h]
  | succ m ih =>
      intro seq n ptr prev out m1 m2 hk hm1 hm2 hdata hprev
      cases n with
      | zero => omega
      | succ n2 =>
          have hidx : ptr + (m + 1) = ptr + 1 + m := by omega
          rw [hidx]
          have hne : ptr ≠ ptr + 1 + m := by omega
          have hw1 : writeAt seq (ptr + 1 + m) m1 ptr = seq ptr := by
            unfold writeAt
            rw [if_neg hne]
          have hw2 : writeAt seq (ptr + 1 + m) m2 ptr = seq ptr := by
            unfold writeAt
            rw [if_neg hne]
          have h0 : isDataColour (seq ptr) = true := by simpa using hdata 0 (by omega)
          have hshift : ∀ i, i < m → isDataColour (seq (ptr + 1 + i)) = true := by
            intro i hi
            have hh := hdata (i + 1) (by omega)
            rwa [show ptr + (i + 1) = ptr + 1 + i by omega] at hh
          have hpr : m = 0 → seq ptr ≠ Colour.WHITE ∧ seq ptr ≠ Colour.YELLOW :=
            fun _ => ⟨(dataColour_props _ h0).2.1, (dataColour_props _ h0).2.2⟩
          rcases to_2bit_data_or_idle (seq ptr) prev h0 with hout | ⟨hn, hout⟩
          · obtain ⟨o, h1, h2⟩ := ih seq n2 (ptr + 1) (seq ptr) out m1 m2
              (by omega) hm1 hm2 hshift hpr
            refine ⟨o, ?_, ?_⟩
            · simp only [fromColourSeq_loop, hw1, hout]
              rw [h1]
            · simp only [fromColourSeq_loop, hw2, hout]
              rw [h2]
          · obtain ⟨o, h1, h2⟩ := ih seq n2 (ptr + 1) (seq ptr) (accPush out hn) m1 m2
              (by omega) hm1 hm2 hshift hpr
            refine ⟨o, ?_, ?_⟩
            · simp only [fromColourSeq_loop, hw1, hout]
              rw [h1]
            · simp only [fromColourSeq_loop, hw2, hout]
              rw [h2]

/-- C9: Mark1 (WHITE) and Mark2 (YELLOW) are interchangeable byte
terminators: for a stream of k < 5 data transitions followed by a marker at
position ptr + k (either marker, written into the same stream), decoding
returns the success code 1 with the same accumulated byte and the same final
cursor whichever of the two markers is present, provided the symbol before
the cursor is not itself that marker when k = 0. -/
theorem C9_marks_interchangeable (seq : Nat → Colour) (ptr k : Nat) (m1 m2 : Colour)
    (hk : k < 5)
    (hm1 : m1 = Colour.WHITE ∨ m1 = Colour.YELLOW)
    (hm2 : m2 = Colour.WHITE ∨ m2 = Colour.YELLOW)
    (hdata : ∀ i, i < k → isDataColour (seq (ptr + i)) = true)
    (hprev : k = 0 →
      (if ptr = 0 then Colour.DARK else seq (ptr - 1)) ≠ Colour.WHITE ∧
      (if ptr = 0 then Colour.DARK else seq (ptr - 1)) ≠ Colour.YELLOW) :
    fromColourSeq_get_uint8 (writeAt seq (ptr + k) m1) ptr =
      fromColourSeq_get_uint8 (writeAt seq (ptr + k) m2) ptr ∧
    (fromColourSeq_get_uint8 (writeAt seq (ptr + k) m1) ptr).1 = 1 ∧
    (fromColourSeq_get_uint8 (writeAt seq (ptr + k) m1) ptr).2.1 = ptr + k + 1 := by
  have hprev1 : (if ptr = 0 then Colour.DARK else writeAt seq (ptr + k) m1 (ptr - 1)) =
      (if ptr = 0 then Colour.DARK else seq (ptr - 1)) := by
    by_cases hptr : ptr = 0
    · simp [hptr]
    · have hne : ptr - 1 ≠ ptr + k := by omega
      simp [hptr, writeAt, hne]
  have hprev2 : (if ptr = 0 then Colour.DARK else writeAt seq (ptr + k) m2 (ptr - 1)) =
      (if ptr = 0 then Colour.DARK else seq (ptr - 1)) := by
    by_cases hptr : ptr = 0
    · simp [hptr]
    · have hne : ptr - 1 ≠ ptr + k := by omega
      simp [hptr, writeAt, hne]
  obtain ⟨o, h1, h2⟩ := loop_marker_interchange k seq 5 ptr
    (if ptr = 0 then Colour.DARK else seq (ptr - 1)) 0 m1 m2 hk hm1 hm2 hdata hprev
  simp only [fromColourSeq_get_uint8, hprev1, hprev2]
  rw [h1, h2]
  exact ⟨rfl, rfl, rfl⟩

/-- C9 witness: two data transitions then a marker at position 2; a WHITE
and a YELLOW terminator produce identical successful results. -/
theorem C9_marks_interchangeable_witness :
    ((2 : Nat) < 5 ∧
      (∀ i, i < 2 → isDataColour ((fun n => List.getD
          [Colour.BLUE, Colour.GREEN] n Colour.CYAN) (0 + i)) = true)) ∧
    (fromColourSeq_get_uint8 (writeAt (fun n => List.getD
        [Colour.BLUE, Colour.GREEN] n Colour.CYAN) (0 + 2) Colour.WHITE) 0 =
      fromColourSeq_get_uint8 (writeAt (fun n => List.getD
        [Colour.BLUE, Colour.GREEN] n Colour.CYAN) (0 + 2) Colour.YELLOW) 0 ∧
    (fromColourSeq_get_uint8 (writeAt (fun n => List.getD
        [Colour.BLUE, Colour.GREEN] n Colour.CYAN) (0 + 2) Colour.WHITE) 0).1 = 1 ∧
    (fromColourSeq_get_uint8 (writeAt (fun n => List.getD
        [Colour.BLUE, Colour.GREEN] n Colour.CYAN) (0 + 2) Colour.WHITE) 0).2.1 =
      0 + 2 + 1) :=
  ⟨by decide, C9_marks_interchangeable
    (fun n => List.getD [Colour.BLUE, Colour.GREEN] n Colour.CYAN)
    0 2 Colour.WHITE Colour.YELLOW (by decide) (Or.inl rfl) (Or.inr rfl)
    (by decide) (by decide)⟩

theorem and_three_lt (x : Nat) : x &&& 3 < 4 := by
  rw [and_three_eq_mod_four]
  omega

theorem roundtrip_hn (p : Colour) (v : Nat) (hv : v < 4) :
    nextColourSeq_to_2bit (nextColourSeq_from_2bit v p) p = DecodeOutcome.Data v := by
  have h4 : v = 0 ∨ v = 1 ∨ v = 2 ∨ v = 3 := by omega
  rcases h4 with rfl | rfl | rfl | rfl <;> cases p <;> rfl

theorem from_2bit_isData (v : Nat) (p : Colour) :
    isDataColour (nextColourSeq_from_2bit v p) = true := by
  show isDataColour
    (halfByteColour.getD (((v &&& 0x03) + offsetOf p) % 5) Colour.DARK) = true
  have h5 : ((v &&& 0x03) + offsetOf p) % 5 = 0 ∨ ((v &&& 0x03) + offsetOf p) % 5 = 1 ∨
      ((v &&& 0x03) + offsetOf p) % 5 = 2 ∨ ((v &&& 0x03) + offsetOf p) % 5 = 3 ∨
      ((v &&& 0x03) + offsetOf p) % 5 = 4 := by omega
  rcases h5 with h | h | h | h | h <;> rw [h] <;> decide

theorem writeAt_same (seq : Nat → Colour) (idx : Nat) (c : Colour) :
    writeAt seq idx c idx = c := by
  simp [writeAt]

theorem writeAt_other (seq : Nat → Colour) (idx : Nat) (c : Colour) (k : Nat)
    (h : k ≠ idx) : writeAt seq idx c k = seq k := by
  simp [writeAt, h]

theorem toColourSeq_uint8_eq (b : Nat) (seq : Nat → Colour) (ptr : Nat) :
    toColourSeq_uint8 b seq ptr =
      (writeAt (writeAt (writeAt (writeAt (writeAt seq ptr
            (nextColourSeq_from_2bit ((b >>> 6) &&& 0x3)
              (if ptr = 0 then Colour.DARK else seq (ptr - 1))))
          (ptr + 1)
            (nextColourSeq_from_2bit ((b >>> 4) &&& 0x3)
              (nextColourSeq_from_2bit ((b >>> 6) &&& 0x3)
                (if ptr = 0 then Colour.DARK else seq (ptr - 1)))))
          (ptr + 2)
            (nextColourSeq_from_2bit ((b >>> 2) &&& 0x3)
              (nextColourSeq_from_2bit ((b >>> 4) &&& 0x3)
                (nextColourSeq_from_2bit ((b >>> 6) &&& 0x3)
                  (if ptr = 0 then Colour.DARK else seq (ptr - 1))))))
          (ptr + 3)
            (nextColourSeq_from_2bit ((b >>> 0) &&& 0x3)
              (nextColourSeq_from_2bit ((b >>> 2) &&& 0x3)
                (nextColourSeq_from_2bit ((b >>> 4) &&& 0x3)
                  (nextColourSeq_from_2bit ((b >>> 6) &&& 0x3)
                    (if ptr = 0 then Colour.DARK else seq (ptr - 1)))))))
          (ptr + 4) Colour.WHITE,
       ptr + 5) := rfl

theorem toColourSeq_snd (b : Nat) (seq : Nat → Colour) (ptr : Nat) :
    (toColourSeq_uint8 b seq ptr).2 = ptr + 5 := rfl

theorem toColourSeq_frame_lt (b : Nat) (seq : Nat → Colour) (ptr : Nat) :
    ∀ k, k < ptr → (toColourSeq_uint8 b seq ptr).1 k = seq k := by
  intro k hk
  rw [toColourSeq_uint8_eq]
  dsimp only
  simp only [writeAt]
  rw [if_neg (show ¬k = ptr + 4 by omega), if_neg (show ¬k = ptr + 3 by omega),
      if_neg (show ¬k = ptr + 2 by omega), if_neg (show ¬k = ptr + 1 by omega),
      if_neg (show ¬k = ptr by omega)]

theorem toColourSeq_frame_gt (b : Nat) (seq : Nat → Colour) (ptr : Nat) :
    ∀ k, ptr + 4 < k → (toColourSeq_uint8 b seq ptr).1 k = seq k := by
  intro k hk
  rw [toColourSeq_uint8_eq]
  dsimp only
  simp only [writeAt]
  rw [if_neg (show ¬k = ptr + 4 by omega), if_neg (show ¬k = ptr + 3 by omega),
      if_neg (show ¬k = ptr + 2 by omega), if_neg (show ¬k = ptr + 1 by omega),
      if_neg (show ¬k = ptr by omega)]

theorem toColourSeq_at4 (b : Nat) (seq : Nat → Colour) (ptr : Nat) :
    (toColourSeq_uint8 b seq ptr).1 (ptr + 4) = Colour.WHITE := by
  rw [toColourSeq_uint8_eq]
  exact writeAt_same _ _ _

/-- C5: for every byte b and starting cursor ptr, toColourSeq_uint8 appends
exactly 5 symbols: the four 2-bit chunks of b most-significant first, each
encoded against the running previous symbol (initialised from the symbol
before the cursor, or DARK at cursor 0, then updated to each emitted
symbol), then the fixed marker WHITE (Mark1) at ptr + 4; every other array
entry is unchanged and the cursor advances to ptr + 5, so the marker is the
carried state read by the next call. -/
theorem C5_encode_byte_shape (b : Nat) (seq : Nat → Colour) (ptr : Nat) :
    let p0 := if ptr = 0 then Colour.DARK else seq (ptr - 1)
    let c0 := nextColourSeq_from_2bit ((b >>> 6) &&& 0x3) p0
    let c1 := nextColourSeq_from_2bit ((b >>> 4) &&& 0x3) c0
    let c2 := nextColourSeq_from_2bit ((b >>> 2) &&& 0x3) c1
    let c3 := nextColourSeq_from_2bit ((b >>> 0) &&& 0x3) c2
    (toColourSeq_uint8 b seq ptr).2 = ptr + 5 ∧
    (toColourSeq_uint8 b seq ptr).1 ptr = c0 ∧
    (toColourSeq_uint8 b seq ptr).1 (ptr + 1) = c1 ∧
    (toColourSeq_uint8 b seq ptr).1 (ptr + 2) = c2 ∧
    (toColourSeq_uint8 b seq ptr).1 (ptr + 3) = c3 ∧
    (toColourSeq_uint8 b seq ptr).1 (ptr + 4) = Colour.WHITE ∧
    (∀ k, k < ptr → (toColourSeq_uint8 b seq ptr).1 k = seq k) ∧
    (∀ k, ptr + 4 < k → (toColourSeq_uint8 b seq ptr).1 k = seq k) := by
  intro p0 c0 c1 c2 c3
  refine ⟨toColourSeq_snd b seq ptr, ?_, ?_, ?_, ?_, toColourSeq_at4 b seq ptr,
    toColourSeq_frame_lt b seq ptr, toColourSeq_frame_gt b seq ptr⟩
  · rw [toColourSeq_uint8_eq]
    dsimp only
    rw [writeAt_other _ _ _ _ (show ptr ≠ ptr + 4 by omega),
        writeAt_other _ _ _ _ (show ptr ≠ ptr + 3 by omega),
        writeAt_other _ _ _ _ (show ptr ≠ ptr + 2 by omega),
        writeAt_other _ _ _ _ (show ptr ≠ ptr + 1 by omega), writeAt_same]
  · rw [toColourSeq_uint8_eq]
    dsimp only
    rw [writeAt_other _ _ _ _ (show ptr + 1 ≠ ptr + 4 by omega),
        writeAt_other _ _ _ _ (show ptr + 1 ≠ ptr + 3 by omega),
        writeAt_other _ _ _ _ (show ptr + 1 ≠ ptr + 2 by omega), writeAt_same]
  · rw [toColourSeq_uint8_eq]
    dsimp only
    rw [writeAt_other _ _ _ _ (show ptr + 2 ≠ ptr + 4 by omega),
        writeAt_other _ _ _ _ (show ptr + 2 ≠ ptr + 3 by omega), writeAt_same]
  · rw [toColourSeq_uint8_eq]
    dsimp only
    rw [writeAt_other _ _ _ _ (show ptr + 3 ≠ ptr + 4 by omega), writeAt_same]

theorem loop_step_data (seq : Nat → Colour) (i ptr : Nat) (prev : Colour) (out hn : Nat)
    (h : nextColourSeq_to_2bit (seq ptr) prev = DecodeOutcome.Data hn) :
    fromColourSeq_loop seq (i + 1) ptr prev out =
      fromColourSeq_loop seq i (ptr + 1) (seq ptr) (accPush out hn) := by
  simp only [fromColourSeq_loop, h]

theorem loop_step_mark1 (seq : Nat → Colour) (i ptr : Nat) (prev : Colour) (out : Nat)
    (h : nextColourSeq_to_2bit (seq ptr) prev = DecodeOutcome.Mark1) :
    fromColourSeq_loop seq (i + 1) ptr prev out = (1, ptr + 1, out) := by
  simp only [fromColourSeq_loop, h]

theorem decode_writeAt5 (seq : Nat → Colour) (ptr : Nat) (prev : Colour)
    {c0 c1 c2 c3 : Colour} (h0 h1 h2 h3 : Nat)
    (hv0 : h0 < 4) (hv1 : h1 < 4) (hv2 : h2 < 4) (hv3 : h3 < 4)
    (hc0 : c0 = nextColourSeq_from_2bit h0 prev)
    (hc1 : c1 = nextColourSeq_from_2bit h1 c0)
    (hc2 : c2 = nextColourSeq_from_2bit h2 c1)
    (hc3 : c3 = nextColourSeq_from_2bit h3 c2) :
    fromColourSeq_loop
      (writeAt (writeAt (writeAt (writeAt (writeAt seq ptr c0) (ptr + 1) c1)
        (ptr + 2) c2) (ptr + 3) c3) (ptr + 4) Colour.WHITE) 5 ptr prev 0 =
      (1, ptr + 5, accPush (accPush (accPush (accPush 0 h0) h1) h2) h3) := by
  set w := writeAt (writeAt (writeAt (writeAt (writeAt seq ptr c0) (ptr + 1) c1)
    (ptr + 2) c2) (ptr + 3) c3) (ptr + 4) Colour.WHITE with hw
  have e0 : w ptr = c0 := by
    rw [hw, writeAt_other _ _ _ _ (show ptr ≠ ptr + 4 by omega),
        writeAt_other _ _ _ _ (show ptr ≠ ptr + 3 by omega),
        writeAt_other _ _ _ _ (show ptr ≠ ptr + 2 by omega),
        writeAt_other _ _ _ _ (show ptr ≠ ptr + 1 by omega), writeAt_same]
  have e1 : w (ptr + 1) = c1 := by
    rw [hw, writeAt_other _ _ _ _ (show ptr + 1 ≠ ptr + 4 by omega),
        writeAt_other _ _ _ _ (show ptr + 1 ≠ ptr + 3 by omega),
        writeAt_other _ _ _ _ (show ptr + 1 ≠ ptr + 2 by omega), writeAt_same]
  have e2 : w (ptr + 2) = c2 := by
    rw [hw, writeAt_other _ _ _ _ (show ptr + 2 ≠ ptr + 4 by omega),
        writeAt_other _ _ _ _ (show ptr + 2 ≠ ptr + 3 by omega), writeAt_same]
  have e3 : w (ptr + 3) = c3 := by
    rw [hw, writeAt_other _ _ _ _ (show ptr + 3 ≠ ptr + 4 by omega), writeAt_same]
  have e4 : w (ptr + 4) = Colour.WHITE := by
    rw [hw, writeAt_same]
  have d0 : nextColourSeq_to_2bit (w ptr) prev = DecodeOutcome.Data h0 := by
    rw [e0, hc0]
    exact roundtrip_hn prev h0 hv0
  have d1 : nextColourSeq_to_2bit (w (ptr + 1)) (w ptr) = DecodeOutcome.Data h1 := by
    rw [e1, e0, hc1]
    exact roundtrip_hn c0 h1 hv1
  have d2 : nextColourSeq_to_2bit (w (ptr + 2)) (w (ptr + 1)) = DecodeOutcome.Data h2 := by
    rw [e2, e1, hc2]
    exact roundtrip_hn c1 h2 hv2
  have d3 : nextColourSeq_to_2bit (w (ptr + 3)) (w (ptr + 2)) = DecodeOutcome.Data h3 := by
    rw [e3, e2, hc3]
    exact roundtrip_hn c2 h3 hv3
  have hdc3 : isDataColour c3 = true := by
    rw [hc3]
    exact from_2bit_isData h3 c2
  have d4 : nextColourSeq_to_2bit (w (ptr + 4)) (w (ptr + 3)) = DecodeOutcome.Mark1 := by
    rw [e4, e3]
    exact to_2bit_white c3 (dataColour_props c3 hdc3).2.1
  calc fromColourSeq_loop w 5 ptr prev 0
      = fromColourSeq_loop w 4 (ptr + 1) (w ptr) (accPush 0 h0) :=
        loop_step_data w 4 ptr prev 0 h0 d0
    _ = fromColourSeq_loop w 3 (ptr + 2) (w (ptr + 1)) (accPush (accPush 0 h0) h1) :=
        loop_step_data w 3 (ptr + 1) (w ptr) (accPush 0 h0) h1 d1
    _ = fromColourSeq_loop w 2 (ptr + 3) (w (ptr + 2))
          (accPush (accPush (accPush 0 h0) h1) h2) :=
        loop_step_data w 2 (ptr + 2) (w (ptr + 1)) (accPush (accPush 0 h0) h1) h2 d2
    _ = fromColourSeq_loop w 1 (ptr + 4) (w (ptr + 3))
          (accPush (accPush (accPush (accPush 0 h0) h1) h2) h3) :=
        loop_step_data w 1 (ptr + 3) (w (ptr + 2))
          (accPush (accPush (accPush 0 h0) h1) h2) h3 d3
    _ = (1, ptr + 5, accPush (accPush (accPush (accPush 0 h0) h1) h2) h3) :=
        loop_step_mark1 w 0 (ptr + 4) (w (ptr + 3))
          (accPush (accPush (accPush (accPush 0 h0) h1) h2) h3) d4

set_option maxRecDepth 4096 in
theorem acc_recompose : ∀ x : Fin 256,
    accPush (accPush (accPush (accPush 0 ((x.val >>> 6) &&& 0x3)) ((x.val >>> 4) &&& 0x3))
      ((x.val >>> 2) &&& 0x3)) ((x.val >>> 0) &&& 0x3) = x.val := by
  decide

theorem encode_then_decode_byte (b : Nat) (hb : b < 256) (seq : Nat → Colour) (ptr : Nat) :
    fromColourSeq_get_uint8 (toColourSeq_uint8 b seq ptr).1 ptr = (1, ptr + 5, b) := by
  have hprev_eq : (if ptr = 0 then Colour.DARK
        else (toColourSeq_uint8 b seq ptr).1 (ptr - 1)) =
      (if ptr = 0 then Colour.DARK else seq (ptr - 1)) := by
    by_cases hp : ptr = 0
    · simp [hp]
    · rw [if_neg hp, if_neg hp, toColourSeq_frame_lt b seq ptr (ptr - 1) (by omega)]
  show fromColourSeq_loop (toColourSeq_uint8 b seq ptr).1 5 ptr
    (if ptr = 0 then Colour.DARK else (toColourSeq_uint8 b seq ptr).1 (ptr - 1)) 0 =
    (1, ptr + 5, b)
  rw [hprev_eq]
  have hfst : (toColourSeq_uint8 b seq ptr).1 =
      writeAt (writeAt (writeAt (writeAt (writeAt seq ptr
            (nextColourSeq_from_2bit ((b >>> 6) &&& 0x3)
              (if ptr = 0 then Colour.DARK else seq (ptr - 1))))
          (ptr + 1)
            (nextColourSeq_from_2bit ((b >>> 4) &&& 0x3)
              (nextColourSeq_from_2bit ((b >>> 6) &&& 0x3)
                (if ptr = 0 then Colour.DARK else seq (ptr - 1)))))
          (ptr + 2)
            (nextColourSeq_from_2bit ((b >>> 2) &&& 0x3)
              (nextColourSeq_from_2bit ((b >>> 4) &&& 0x3)
                (nextColourSeq_from_2bit ((b >>> 6) &&& 0x3)
                  (if ptr = 0 then Colour.DARK else seq (ptr - 1))))))
          (ptr + 3)
            (nextColourSeq_from_2bit ((b >>> 0) &&& 0x3)
              (nextColourSeq_from_2bit ((b >>> 2) &&& 0x3)
                (nextColourSeq_from_2bit ((b >>> 4) &&& 0x3)
                  (nextColourSeq_from_2bit ((b >>> 6) &&& 0x3)
                    (if ptr = 0 then Colour.DARK else seq (ptr - 1)))))))
          (ptr + 4) Colour.WHITE := rfl
  rw [hfst]
  rw [decode_writeAt5 seq ptr (if ptr = 0 then Colour.DARK else seq (ptr - 1))
    ((b >>> 6) &&& 0x3) ((b >>> 4) &&& 0x3) ((b >>> 2) &&& 0x3) ((b >>> 0) &&& 0x3)
    (and_three_lt _) (and_three_lt _) (and_three_lt _) (and_three_lt _)
    rfl rfl rfl rfl]
  have hacc : accPush (accPush (accPush (accPush 0 ((b >>> 6) &&& 0x3))
      ((b >>> 4) &&& 0x3)) ((b >>> 2) &&& 0x3)) ((b >>> 0) &&& 0x3) = b :=
    acc_recompose ⟨b, hb⟩
  rw [hacc]

theorem loop_congr (n : Nat) :
    ∀ (s1 s2 : Nat → Colour) (ptr : Nat) (prev : Colour) (out : Nat),
      (∀ i, i < n → s1 (ptr + i) = s2 (ptr + i)) →
      fromColourSeq_loop s1 n ptr prev out = fromColourSeq_loop s2 n ptr prev out := by
  induction n with
  | zero =>
      intro s1 s2 ptr prev out _
      rfl
  | succ m ih =>
      intro s1 s2 ptr prev out h
      have h0 : s1 ptr = s2 ptr := by simpa using h 0 (by omega)
      have hshift : ∀ i, i < m → s1 (ptr + 1 + i) = s2 (ptr + 1 + i) := by
        intro i hi
        have hh := h (i + 1) (by omega)
        rwa [show ptr + (i + 1) = ptr + 1 + i by omega] at hh
      cases hout : nextColourSeq_to_2bit (s2 ptr) prev with
      | Idle =>
          have hout1 : nextColourSeq_to_2bit (s1 ptr) prev = DecodeOutcome.Idle := by
            rw [h0]
            exact hout
          simp only [fromColourSeq_loop, hout, hout1, h0]
          exact ih s1 s2 (ptr + 1) (s2 ptr) out hshift
      | Data hn =>
          have hout1 : nextColourSeq_to_2bit (s1 ptr) prev = DecodeOutcome.Data hn := by
            rw [h0]
            exact hout
          simp only [fromColourSeq_loop, hout, hout1, h0]
          exact ih s1 s2 (ptr + 1) (s2 ptr) (accPush out hn) hshift
      | Mark1 =>
          have hout1 : nextColourSeq_to_2bit (s1 ptr) prev = DecodeOutcome.Mark1 := by
            rw [h0]
            exact hout
          simp only [fromColourSeq_loop, hout, hout1]
      | Mark2 =>
          have hout1 : nextColourSeq_to_2bit (s1 ptr) prev = DecodeOutcome.Mark2 := by
            rw [h0]
            exact hout
          simp only [fromColourSeq_loop, hout, hout1]
      | ChannelDown =>
          have hout1 : nextColourSeq_to_2bit (s1 ptr) prev = DecodeOutcome.ChannelDown := by
            rw [h0]
            exact hout
          simp only [fromColourSeq_loop, hout, hout1]

theorem get_uint8_congr (s1 s2 : Nat → Colour) (ptr : Nat)
    (hpre : ptr ≠ 0 → s1 (ptr - 1) = s2 (ptr - 1))
    (h : ∀ i, i < 5 → s1 (ptr + i) = s2 (ptr + i)) :
    fromColourSeq_get_uint8 s1 ptr = fromColourSeq_get_uint8 s2 ptr := by
  show fromColourSeq_loop s1 5 ptr (if ptr = 0 then Colour.DARK else s1 (ptr - 1)) 0 =
    fromColourSeq_loop s2 5 ptr (if ptr = 0 then Colour.DARK else s2 (ptr - 1)) 0
  have hpp : (if ptr = 0 then Colour.DARK else s1 (ptr - 1)) =
      (if ptr = 0 then Colour.DARK else s2 (ptr - 1)) := by
    by_cases hp : ptr = 0
    · simp [hp]
    · rw [if_neg hp, if_neg hp, hpre hp]
  rw [hpp]
  exact loop_congr 5 s1 s2 ptr _ 0 h

theorem toColourSeq_bytes_spec (bytes : List Nat) :
    ∀ (seq : Nat → Colour) (ptr : Nat),
      (∀ b ∈ bytes, b < 256) →
      (toColourSeq_bytes bytes seq ptr).2 = ptr + 5 * bytes.length ∧
      (∀ k, k < ptr → (toColourSeq_bytes bytes seq ptr).1 k = seq k) ∧
      (∀ i, ∀ hi : i < bytes.length,
        fromColourSeq_get_uint8 (toColourSeq_bytes bytes seq ptr).1 (ptr + 5 * i) =
          (1, ptr + 5 * i + 5, bytes.get ⟨i, hi⟩) ∧
        (toColourSeq_bytes bytes seq ptr).1 (ptr + 5 * i + 4) = Colour.WHITE) := by
  induction bytes with
  | nil =>
      intro seq ptr _
      refine ⟨by simp [toColourSeq_bytes], fun k _ => rfl,
        fun i hi => absurd hi (by simp)⟩
  | cons b rest ih =>
      intro seq ptr hall
      have hb : b < 256 := hall b (List.mem_cons_self b rest)
      have hstep : toColourSeq_bytes (b :: rest) seq ptr =
          toColourSeq_bytes rest (toColourSeq_uint8 b seq ptr).1 (ptr + 5) := by
        show toColourSeq_bytes rest (toColourSeq_uint8 b seq ptr).1
          (toColourSeq_uint8 b seq ptr).2 = _
        rw [toColourSeq_snd]
      obtain ⟨ih2, ihframe, ihdec⟩ := ih (toColourSeq_uint8 b seq ptr).1 (ptr + 5)
        (fun x hx => hall x (List.mem_cons_of_mem b hx))
      refine ⟨?_, ?_, ?_⟩
      · rw [hstep, ih2, List.length_cons]
        omega
      · intro k hk
        rw [hstep, ihframe k (by omega), toColourSeq_frame_lt b seq ptr k hk]
      · intro i hi
        cases i with
        | zero =>
            constructor
            · show fromColourSeq_get_uint8 (toColourSeq_bytes (b :: rest) seq ptr).1 ptr =
                (1, ptr + 5, b)
              rw [hstep]
              have hcong : fromColourSeq_get_uint8
                  (toColourSeq_bytes rest (toColourSeq_uint8 b seq ptr).1 (ptr + 5)).1 ptr =
                  fromColourSeq_get_uint8 (toColourSeq_uint8 b seq ptr).1 ptr := by
                apply get_uint8_congr
                · intro hp
                  exact ihframe (ptr - 1) (by omega)
                · intro j hj
                  exact ihframe (ptr + j) (by omega)
              rw [hcong]
              exact encode_then_decode_byte b hb seq ptr
            · show (toColourSeq_bytes (b :: rest) seq ptr).1 (ptr + 4) = Colour.WHITE
              rw [hstep, ihframe (ptr + 4) (by omega), toColourSeq_at4]
        | succ i2 =>
            have hi2 : i2 < rest.length := by
              have hl := hi
              simp only [List.length_cons] at hl
              omega
            obtain ⟨hdec, hwhite⟩ := ihdec i2 hi2
            constructor
            · rw [hstep, show ptr + 5 * (i2 + 1) = ptr + 5 + 5 * i2 by ring]
              exact hdec
            · rw [hstep, show ptr + 5 * (i2 + 1) + 4 = ptr + 5 + 5 * i2 + 4 by ring]
              exact hwhite

/-- C2: encoding any list of bytes below 256 starting from cursor 0 (initial
previous symbol DARK/Closed, carried across calls through the sequence) and
then decoding the concatenated stream recovers the same bytes in order: the
final cursor is 5 per byte, and for every index i the decode call at cursor
5i succeeds (code 1) with byte i, leaves the cursor at 5i + 5, and the
consumed terminator at position 5i + 4 is WHITE (Mark1). -/
theorem C2_stream_roundtrip (bytes : List Nat) (hbytes : ∀ b ∈ bytes, b < 256)
    (seq0 : Nat → Colour) :
    (toColourSeq_bytes bytes seq0 0).2 = 5 * bytes.length ∧
    ∀ i, ∀ hi : i < bytes.length,
      fromColourSeq_get_uint8 (toColourSeq_bytes bytes seq0 0).1 (5 * i) =
        (1, 5 * i + 5, bytes.get ⟨i, hi⟩) ∧
      (toColourSeq_bytes bytes seq0 0).1 (5 * i + 4) = Colour.WHITE := by
  obtain ⟨h2, _, h3⟩ := toColourSeq_bytes_spec bytes seq0 0 hbytes
  constructor
  · rw [h2]
    omega
  · intro i hi
    obtain ⟨hd, hw⟩ := h3 i hi
    simp only [Nat.zero_add] at hd hw
    exact ⟨hd, hw⟩

/-- C2 witness: encoding the string HI (bytes 72 and 73) from cursor 0 and
decoding the 10-symbol stream yields 72 then 73, each decode advancing the
cursor by exactly 5, with WHITE terminators at positions 4 and 9. -/
theorem C2_stream_roundtrip_witness :
    (∀ b ∈ [72, 73], b < 256) ∧
    ((toColourSeq_bytes [72, 73] (fun _ => Colour.DARK) 0).2 = 5 * List.length [72, 73] ∧
      ∀ i, ∀ hi : i < List.length [72, 73],
        fromColourSeq_get_uint8 (toColourSeq_bytes [72, 73] (fun _ => Colour.DARK) 0).1
            (5 * i) = (1, 5 * i + 5, List.get [72, 73] ⟨i, hi⟩) ∧
        (toColourSeq_bytes [72, 73] (fun _ => Colour.DARK) 0).1 (5 * i + 4) =
          Colour.WHITE) :=
  ⟨by decide, C2_stream_roundtrip [72, 73] (by decide) (fun _ => Colour.DARK)⟩
